import Mathlib

/-!
Verification of the TestVPN repository (a Telegram video-leech bot,
two near-duplicate drafts: `src/main.py` and `src/main-backup.py`).

Shallow embedding: the pure decision logic of each component is
translated into executable Lean definitions; external effects
(yt-dlp, ffmpeg subprocesses, Telegram uploads, the filesystem and the
monotonic clock) are passed in as explicit oracles / parameters.
Python floats (ffprobe durations, tbr bitrates) are modelled as exact
rationals; Python ints as `Nat`/`Int`.
-/

/-! ## Format selection (`handle_incoming_url`, main.py 201-226, main-backup.py 245-273)

A yt-dlp format dict is modelled by the fields this code reads:
`vcodec`, `height`, `filesize`, `tbr`.  Absent keys are `none`. -/

structure Fmt where
  vcodec : Option String
  height : Option Nat
  filesize : Option Nat
  tbr : Option ℚ
deriving DecidableEq, Repr

/-- Python `int(x)` on a float/rational: truncation toward zero. -/
def pyTrunc (q : ℚ) : ℤ :=
  if q < 0 then -(⌊-q⌋) else ⌊q⌋

/-- `f.get("height") or 0`: a missing height (and height `0`) collapse to `0`. -/
def hkey (f : Fmt) : Nat :=
  f.height.getD 0

/-- `f.get("vcodec") != "none"`: the filter keeping video formats.
A missing `vcodec` (`none`) is *not* equal to the string so it passes. -/
def isVideo (f : Fmt) : Bool :=
  !(f.vcodec == some ("none"))

/-- `score = (f.get("filesize") or 0) + int((f.get("tbr") or 0) * 1024)`. -/
def pyScore (f : Fmt) : ℤ :=
  (f.filesize.getD 0 : ℤ) + pyTrunc (f.tbr.getD 0 * 1024)

/-- Association-list lookup for the `by_h` dict (keys are heights). -/
def lookupH : List (Nat × Fmt) → Nat → Option Fmt
  | [], _ => none
  | (h', f) :: m, h => if h' = h then some f else lookupH m h

/-- In-place replacement of the entry at an existing key of `by_h`. -/
def setH : List (Nat × Fmt) → Nat → Fmt → List (Nat × Fmt)
  | [], _, _ => []
  | (h', f') :: m, h, f => if h' = h then (h, f) :: m else (h', f') :: setH m h f

/-- One iteration of the dedup loop (main.py 208-215 / main-backup.py 249-259):
skip heights above the 1080 ceiling, otherwise keep the candidate with the
strictly larger score per height bucket (first one wins ties). -/
def updByH (m : List (Nat × Fmt)) (f : Fmt) : List (Nat × Fmt) :=
  let h := hkey f
  if 1080 < h then m
  else
    match lookupH m h with
    | none => m ++ [(h, f)]
    | some cur => if pyScore cur < pyScore f then setH m h f else m

/-- The whole `by_h` dict built from the video-format list. -/
def buildByH (vfs : List Fmt) : List (Nat × Fmt) :=
  vfs.foldl updByH []

/-- Insertion step of a descending sort (`sorted(keys, reverse=True)`). -/
def insertDesc (x : Nat) : List Nat → List Nat
  | [] => [x]
  | y :: ys => if y ≤ x then x :: y :: ys else y :: insertDesc x ys

/-- Descending sort of the bucket keys. -/
def sortDesc (l : List Nat) : List Nat :=
  l.foldr insertDesc []

/-- The dummy format returned when a key unexpectedly misses its bucket
(never reached: every sorted key is a key of `by_h`). -/
def fmtDefault : Fmt := ⟨none, none, none, none⟩

/-- `unique = [by_h[h] for h in sorted(by_h.keys(), reverse=True)]`
applied after the video filter: the full FormatSelector
(main.py 202-216, main-backup.py 246-260 compute the same list). -/
def selectFormats (formats : List Fmt) : List Fmt :=
  let vfs := formats.filter isVideo
  let m := buildByH vfs
  (sortDesc (m.map Prod.fst)).map (fun h => (lookupH m h).getD fmtDefault)

/-- main.py 203-218: the session entry `SESS[token] = ...` is created
whenever `video_formats` is non-empty (the emptiness of the deduplicated
`unique` list is never checked before token creation). -/
def mainSessionCreated (formats : List Fmt) : Bool :=
  !((formats.filter isVideo).isEmpty)

/-- main-backup.py 246-265: `choices` (the deduplicated list) is checked for
emptiness *before* the token is created, so a session entry appears only
when at least one selectable encoding exists. -/
def backupSessionCreated (formats : List Fmt) : Bool :=
  !((selectFormats formats).isEmpty)

/-! ## Extraction retries (`try_extract_info`, main.py 101-159; `run_ydl`, main.py 304-327)

Only the option fields that differ across the four negotiation attempts
(plus the constant base/download fields) are modelled.  The network is an
oracle `extract : YdlOpts → Except E (Option I)`: `.error e` models a raised
exception, `.ok none` models a falsy (empty) info dict, `.ok (some i)` a
successful extraction. -/

structure YdlOpts where
  quiet : Bool := false
  skipDownload : Bool := false
  noWarnings : Bool := false
  noplaylist : Bool := false
  format : Option String := none
  outtmpl : Option String := none
  /-- `extractor_args["generic"]["impersonate"]` -/
  impersonateGeneric : Option String := none
  /-- `http_headers` -/
  httpHeaders : Option (List (String × String)) := none
deriving DecidableEq, Repr

/-- The explicit browser header block of main.py 128-134. -/
def browserHeaders : List (String × String) :=
  [ ("User-Agent", "Mozilla/5.0 (Windows NT 10.0; Win64; x64) AppleWebKit/537.36 (KHTML, like Gecko) Chrome/117.0.0.0 Safari/537.36"),
    ("Accept", "text/html,application/xhtml+xml,application/xml;q=0.9,*/*;q=0.8"),
    ("Accept-Language", "en-US,en;q=0.9") ]

/-- `ydl_base_opts` of main.py 189: `{"quiet": True, "skip_download": True, "no_warnings": True}`. -/
def infoBaseOpts : YdlOpts :=
  { quiet := true, skipDownload := true, noWarnings := true }

/-- The four candidate option sets of main.py 111-141, in attempt order:
base, base+impersonation, base+headers, base+headers+impersonation. -/
def attemptOpts (base : YdlOpts) : List YdlOpts :=
  [ base,
    { base with impersonateGeneric := some ("chrome110") },
    { base with httpHeaders := some browserHeaders },
    { base with httpHeaders := some browserHeaders, impersonateGeneric := some ("chrome110") } ]

/-- A failure recorded by one extraction attempt: a raised exception, the
synthetic `ExtractorError("Empty info returned")`, or the (unreachable)
`raise last_exc` with `last_exc = None`. -/
inductive ExtractFail (E : Type) where
  | exc (e : E)
  | emptyInfo
  | noneRaised
deriving DecidableEq, Repr

/-- The retry loop of main.py 143-159: walk the attempt list, return the
first success, remember the last failure, raise it when all attempts fail.
Also counts how many attempts were performed. -/
def attemptGo {E I : Type} (extract : YdlOpts → Except E (Option I)) :
    List YdlOpts → Option (ExtractFail E) → Except (ExtractFail E) I × Nat
  | [], lastExc => (.error (lastExc.getD .noneRaised), 0)
  | o :: rest, _ =>
    match extract o with
    | .ok (some i) => (.ok i, 1)
    | .ok none =>
        let r := attemptGo extract rest (some .emptyInfo)
        (r.1, r.2 + 1)
    | .error e =>
        let r := attemptGo extract rest (some (.exc e))
        (r.1, r.2 + 1)

/-- `try_extract_info` (metadata-only mode), main.py 101-159. -/
def try_extract_info {E I : Type} (extract : YdlOpts → Except E (Option I)) :
    Except (ExtractFail E) I × Nat :=
  attemptGo extract (attemptOpts infoBaseOpts) none

/-- The download-mode yt-dlp options of main.py 305-312 (the progress hook
and the concrete tmpdir path are effects, not modelled). -/
def dlOpts (fmtid : String) : YdlOpts :=
  { format := some fmtid, outtmpl := some ("%(title).200s.%(ext)s"),
    noplaylist := true, quiet := true, noWarnings := true }

/-- `run_ydl`, main.py 314-318: one single yt-dlp invocation with the chosen
format; no retry over negotiation profiles (the comment at main.py 315-316
says so explicitly).  Exceptions propagate to the caller. -/
def run_ydl {E I : Type} (extract : YdlOpts → Except E (Option I))
    (fmtid : String) : Except E (Option I) :=
  extract (dlOpts fmtid)

/-! ## Normalization (remux / re-encode), main.py 338-377, main-backup.py 389-406 -/

/-- Which file `src_for_split` points at after normalization. -/
inductive NormResult where
  | remuxed
  | reencoded
  | failed
deriving DecidableEq, Repr

set_option linter.unusedVariables false in
/-- main.py 341-377.  Inside the `try` block, line 348 executes
`code, out = loop.run_until_complete(...) if False else None`, i.e. it
unpacks `None`, raising `TypeError` *before* the ffmpeg stream-copy remux
(`remux()` at 350-355) is ever invoked.  Control therefore always reaches
the `except` branch and attempts the re-encode, whatever the remux oracle
says: `remuxOk` is dead.  `reencodeOk` is the re-encode subprocess oracle. -/
def normalizeMain (remuxOk reencodeOk : Bool) : NormResult :=
  if reencodeOk then .reencoded else .failed

/-- main-backup.py 392-406: try the stream-copy remux; only on its failure
try the re-encode; if both fail the run aborts. -/
def normalizeBackup (remuxOk reencodeOk : Bool) : NormResult :=
  if remuxOk then .remuxed
  else if reencodeOk then .reencoded
  else .failed

/-! ## Time-based splitting
`split_mp4_by_time` (main.py 462-517 and main-backup.py 177-203).

The filesystem and ffmpeg/ffprobe are oracles: `size` is `src.stat().st_size`,
`duration` is the ffprobe result (a float, modelled as an exact rational;
`0.0` on probe failure), `strideOk start` is the exit status of the ffmpeg
copy for the stride beginning at `start`, and `partSize idx` is the on-disk
size of the produced part number `idx` (1-based). -/

/-- One produced part: its 1-based index, its `-ss` start offset and the
`-t` segment length passed to ffmpeg. -/
structure SplitPart where
  idx : Nat
  start : Nat
  segLen : Nat
deriving DecidableEq, Repr

inductive SplitErr where
  /-- `RuntimeError("Cannot determine duration for splitting ...")` -/
  | noDuration
  /-- `RuntimeError(f"ffmpeg split failed at start {start}: ...")` -/
  | ffmpegFailed (start : Nat)
  /-- `RuntimeError(f"Part too large after split: ...")` -/
  | partTooLarge (idx : Nat)
deriving DecidableEq, Repr

inductive SplitOut where
  /-- the identity case `return [src]`: the input file itself is the sole part -/
  | same
  | parts (ps : List SplitPart)
deriving DecidableEq, Repr

/-- Python `range(0, stop, step)` for `step > 0`: the starts
`0, step, 2*step, ...` strictly below `stop`. -/
def pyRange (stop step : Nat) : List Nat :=
  (List.range ((stop + step - 1) / step)).map (fun i => i * step)

/-- `seg_secs = max(5, int(math.floor(max_bytes / bytes_per_sec)))` with
`bytes_per_sec = size / duration` (main.py 486-487, main-backup.py 184-185). -/
def segSecsOf (size maxBytes : Nat) (duration : ℚ) : Nat :=
  max 5 ⌊(maxBytes : ℚ) / ((size : ℚ) / duration)⌋₊

/-- The per-stride ffmpeg loop (main.py 492-512): one part per start offset,
aborting the whole split at the first non-zero ffmpeg exit status.
`idx` is the running 1-based part counter. -/
def buildParts (strideOk : Nat → Bool) (seg : Nat) :
    Nat → List Nat → Except SplitErr (List SplitPart)
  | _, [] => .ok []
  | idx, s :: rest =>
    if strideOk s then
      match buildParts strideOk seg (idx + 1) rest with
      | .ok ps => .ok (⟨idx, s, seg⟩ :: ps)
      | .error e => .error e
    else .error (.ffmpegFailed s)

/-- The size post-check loop (main.py 514-516): the first part whose size
exceeds `max_bytes + 1024*1024` raises. -/
def checkSizes (partSize : Nat → Nat) (maxBytes : Nat) :
    List SplitPart → Except SplitErr Unit
  | [] => .ok ()
  | p :: ps =>
    if maxBytes + 1024 * 1024 < partSize p.idx then .error (.partTooLarge p.idx)
    else checkSizes partSize maxBytes ps

namespace MainPy

/-- `split_mp4_by_time`, main.py 462-517.  In order: the identity case
(`size <= max_bytes`), the fatal `duration <= 0` check, the segment-length
computation (with the dead `seg_secs <= 0` default of 10, unreachable
because of the `max(5, ...)` clamp), the stride loop over
`range(0, int(math.ceil(duration)), seg_secs)`, then the size post-check. -/
def split_mp4_by_time (size maxBytes : Nat) (duration : ℚ)
    (strideOk : Nat → Bool) (partSize : Nat → Nat) : Except SplitErr SplitOut :=
  if size ≤ maxBytes then .ok .same
  else if duration ≤ 0 then .error .noDuration
  else
    let seg0 := segSecsOf size maxBytes duration
    let seg := if seg0 ≤ 0 then 10 else seg0
    let totalSecs := ⌈duration⌉₊
    match buildParts strideOk seg 1 (pyRange totalSecs seg) with
    | .error e => .error e
    | .ok ps =>
      match checkSizes partSize maxBytes ps with
      | .error e => .error e
      | .ok _ => .ok (.parts ps)

end MainPy

namespace BackupPy

/-- `split_mp4_by_time`, main-backup.py 177-203: identical identity case,
`duration <= 0` check, `seg_secs` formula (with the same dead default),
stride loop and size post-check as the main.py draft. -/
def split_mp4_by_time (size maxBytes : Nat) (duration : ℚ)
    (strideOk : Nat → Bool) (partSize : Nat → Nat) : Except SplitErr SplitOut :=
  if size ≤ maxBytes then .ok .same
  else if duration ≤ 0 then .error .noDuration
  else
    let seg0 := segSecsOf size maxBytes duration
    let seg := if seg0 ≤ 0 then 10 else seg0
    let totalSecs := ⌈duration⌉₊
    match buildParts strideOk seg 1 (pyRange totalSecs seg) with
    | .error e => .error e
    | .ok ps =>
      match checkSizes partSize maxBytes ps with
      | .error e => .error e
      | .ok _ => .ok (.parts ps)

end BackupPy

/-! ## Throttled progress notifier (`Throttler`, main.py 82-95, main-backup.py 124-137)

`time.monotonic()` is an explicit `now` parameter; the `_last` dict with its
`get(key, 0.0)` default is a total function from keys to times. -/

structure Throttler where
  interval : ℚ
  lastMap : String → ℚ

/-- A fresh throttler: empty `_last` dict (`get` defaults to `0.0`). -/
def Throttler.init (interval : ℚ) : Throttler :=
  ⟨interval, fun _ => 0⟩

/-- `Throttler.should` (main.py 87-93): emit iff `now - last >= interval`,
recording `now` for the key exactly when emitting. -/
def Throttler.should (t : Throttler) (key : String) (now : ℚ) : Bool × Throttler :=
  if t.interval ≤ now - t.lastMap key then
    (true, ⟨t.interval, fun k => if k = key then now else t.lastMap k⟩)
  else (false, t)

/-- A sequence of `should` calls (key, clock value), threading the state. -/
def runCalls (t : Throttler) : List (String × ℚ) → Throttler
  | [] => t
  | c :: cs => runCalls (t.should c.1 c.2).2 cs

/-! ## Sequential upload loop (main.py 393-443, main-backup.py 422-466)

`for idx, part in enumerate(parts, start=1)` with a `try/except` whose
`except` branch reports the failure and `return`s from the pipeline:
delivery is strictly in list order and stops at the first failing part.
The Telegram send is the oracle `ok idx`. -/

/-- `enumerate(parts, start=i)`. -/
def indexedFrom {α : Type} (i : Nat) : List α → List (Nat × α)
  | [] => []
  | p :: ps => (i, p) :: indexedFrom (i + 1) ps

/-- The upload loop from part index `i` on: returns the (index, part) pairs
delivered in order, and `some k` when the upload of part `k` failed (the
loop `return`s there: no later part is attempted), `none` on full success. -/
def uploadGo {α : Type} (ok : Nat → Bool) : Nat → List α → List (Nat × α) × Option Nat
  | _, [] => ([], none)
  | i, p :: ps =>
    if ok i then
      let r := uploadGo ok (i + 1) ps
      ((i, p) :: r.1, r.2)
    else ([], some i)

/-! ## Pipeline orchestration (`pipeline_task`, main.py 260-459, main-backup.py 307-476)

All external effects are collected in an environment of oracles; the body
is the straight-line sequence of stages with its early `return`s, and the
`finally` block (rmtree of the scratch dir + `SESS.pop(token, None)`) runs
after the body on every path. -/

structure PipelineEnv where
  /-- `run_ydl` (the yt-dlp download) raised no exception -/
  downloadOk : Bool
  /-- the scratch dir holds at least one file after the download -/
  hasFiles : Bool
  /-- the ffmpeg stream-copy remux subprocess would exit 0 -/
  remuxOk : Bool
  /-- the ffmpeg re-encode subprocess would exit 0 -/
  reencodeOk : Bool
  /-- size of the remuxed file -/
  remuxedSize : Nat
  /-- size of the re-encoded file -/
  reencSize : Nat
  /-- `PART_MAX_BYTES` -/
  maxBytes : Nat
  /-- ffprobe duration of `src_for_split` -/
  duration : ℚ
  /-- per-stride ffmpeg exit status for the split -/
  strideOk : Nat → Bool
  /-- on-disk size of split part number `idx` -/
  partSize : Nat → Nat
  /-- Telegram delivery of part number `idx` succeeded -/
  uploadOk : Nat → Bool
  /-- some other exception is raised inside the body (caught by the
  `except Exception` handler in main.py; propagated, after cleanup,
  in main-backup.py) -/
  raisesUnexpected : Bool

inductive PipeOutcome where
  | downloadFailed
  | noOutputFile
  | normalizationFailed
  | splitFailed (e : SplitErr)
  | uploadFailed (k : Nat)
  | completed (nparts : Nat)
  | unhandledError
deriving DecidableEq, Repr

/-- The run-scoped shared state the claims talk about: whether the scratch
directory exists and whether `SESS` still holds this run's token. -/
structure RunState where
  tmpdirExists : Bool
  sessionPresent : Bool
deriving DecidableEq, Repr

/-- The upload stage shared by both drafts: parts are the split outputs, or
the single `src_for_split` file in the identity case. -/
def uploadStage (env : PipelineEnv) (out : SplitOut) : PipeOutcome :=
  let n := match out with
    | .same => 1
    | .parts ps => ps.length
  match (uploadGo env.uploadOk 1 (List.range n)).2 with
  | some k => .uploadFailed k
  | none => .completed n

/-- The `try` body of main.py's `pipeline_task` (260-453): download, pick
the largest file, normalize (per `normalizeMain`), split when above
`PART_MAX_BYTES`, upload sequentially.  Each failing stage `return`s. -/
def pipelineBodyMain (env : PipelineEnv) : PipeOutcome :=
  if env.raisesUnexpected then .unhandledError
  else if !env.downloadOk then .downloadFailed
  else if !env.hasFiles then .noOutputFile
  else
    match normalizeMain env.remuxOk env.reencodeOk with
    | .failed => .normalizationFailed
    | nr =>
      let size := match nr with
        | .remuxed => env.remuxedSize
        | .reencoded => env.reencSize
        | .failed => 0
      if env.maxBytes < size then
        match MainPy.split_mp4_by_time size env.maxBytes env.duration
            env.strideOk env.partSize with
        | .error e => .splitFailed e
        | .ok out => uploadStage env out
      else uploadStage env .same

/-- The `try` body of main-backup.py's `pipeline_task` (307-469), identical
except that normalization follows `normalizeBackup` (working remux path). -/
def pipelineBodyBackup (env : PipelineEnv) : PipeOutcome :=
  if env.raisesUnexpected then .unhandledError
  else if !env.downloadOk then .downloadFailed
  else if !env.hasFiles then .noOutputFile
  else
    match normalizeBackup env.remuxOk env.reencodeOk with
    | .failed => .normalizationFailed
    | nr =>
      let size := match nr with
        | .remuxed => env.remuxedSize
        | .reencoded => env.reencSize
        | .failed => 0
      if env.maxBytes < size then
        match BackupPy.split_mp4_by_time size env.maxBytes env.duration
            env.strideOk env.partSize with
        | .error e => .splitFailed e
        | .ok out => uploadStage env out
      else uploadStage env .same

/-- `pipeline_task` of main.py: `tempfile.mkdtemp` creates the scratch dir
and the token is in `SESS` on entry; the body runs (its exceptions are
absorbed by the `except Exception` handler at 447-453); the `finally`
block at 454-459 removes the scratch dir and pops the token. -/
def pipeline_task_main (env : PipelineEnv) : PipeOutcome × RunState :=
  let entry : RunState := { tmpdirExists := true, sessionPresent := true }
  let out := pipelineBodyMain env
  (out, { entry with tmpdirExists := false, sessionPresent := false })

/-- `pipeline_task` of main-backup.py: same shape; there is no
`except Exception` wrapper, but the `finally` block at 470-476 still runs
(before any unhandled exception propagates). -/
def pipeline_task_backup (env : PipelineEnv) : PipeOutcome × RunState :=
  let entry : RunState := { tmpdirExists := true, sessionPresent := true }
  let out := pipelineBodyBackup env
  (out, { entry with tmpdirExists := false, sessionPresent := false })

/-- The two invariants of the `by_h` dict: distinct height keys, and the
stored candidate of each bucket really has that height key. -/
def ByHInv (m : List (Nat × Fmt)) : Prop :=
  (m.map Prod.fst).Nodup ∧ ∀ p ∈ m, hkey p.2 = p.1

/-- Attempt 1: the base options unchanged (main.py 115-116). -/
def attempt1 : YdlOpts := infoBaseOpts

/-- Attempt 2: impersonation profile added (main.py 118-124). -/
def attempt2 : YdlOpts := { infoBaseOpts with impersonateGeneric := some ("chrome110") }

/-- Attempt 3: explicit browser headers (main.py 126-135). -/
def attempt3 : YdlOpts := { infoBaseOpts with httpHeaders := some browserHeaders }

/-- Attempt 4: impersonation and headers combined (main.py 137-141). -/
def attempt4 : YdlOpts :=
  { infoBaseOpts with httpHeaders := some browserHeaders,
                      impersonateGeneric := some ("chrome110") }

/-- An attempt fails when the oracle raises or returns a falsy info dict. -/
def attemptFails {E I : Type} (extract : YdlOpts → Except E (Option I))
    (o : YdlOpts) : Prop :=
  extract o = .ok none ∨ ∃ e, extract o = .error e

/-- The `last_exc` value the loop records for the outcome of one attempt. -/
def failRecord {E I : Type} : Except E (Option I) → Option (ExtractFail E)
  | .ok none => some .emptyInfo
  | .error e => some (.exc e)
  | .ok (some _) => none


/-! ## Concrete example inputs used in closed instances -/

/-- A format list with a single video format above the 1080p ceiling. -/
def c2Formats : List Fmt :=
  [⟨some ("avc1"), some 1440, none, none⟩]

/-- A mixed format list: a 720p candidate, an audio-only entry, an
unknown-height entry, a 1080p candidate, an above-ceiling candidate. -/
def exFormats : List Fmt :=
  [ ⟨some ("avc1"), some 720, some 1000, none⟩,
    ⟨some ("none"), none, none, some 96⟩,
    ⟨none, none, none, some 100⟩,
    ⟨some ("vp9"), some 1080, none, some 2000⟩,
    ⟨some ("av01"), some 2160, some 999999, none⟩ ]

/-- An extraction oracle that rejects the default network identity but
accepts any impersonated request: attempt 1 raises, attempt 2 succeeds. -/
def exExtract : YdlOpts → Except Nat (Option Nat) :=
  fun o => if o.impersonateGeneric.isSome then .ok (some 7) else .error 0

/-! ## Lemmas about the format selector -/

theorem insertDesc_perm (x : Nat) (l : List Nat) : (insertDesc x l).Perm (x :: l) := by
  induction l with
  | nil => simp [insertDesc]
  | cons y ys ih =>
    by_cases h : y ≤ x
    · simp [insertDesc, h]
    · simp only [insertDesc, if_neg h]
      exact (ih.cons y).trans (List.Perm.swap x y ys)

theorem mem_insertDesc {x z : Nat} {l : List Nat} :
    z ∈ insertDesc x l ↔ z = x ∨ z ∈ l := by
  have := (insertDesc_perm x l).mem_iff (a := z)
  simpa using this

theorem sorted_ge_insertDesc (x : Nat) {l : List Nat}
    (h : List.Sorted (· ≥ ·) l) : List.Sorted (· ≥ ·) (insertDesc x l) := by
  induction l with
  | nil => simp [insertDesc]
  | cons y ys ih =>
    rw [List.sorted_cons] at h
    obtain ⟨hy, hys⟩ := h
    by_cases hxy : y ≤ x
    · simp only [insertDesc, if_pos hxy]
      rw [List.sorted_cons]
      refine ⟨?_, ?_⟩
      · intro b hb
        rcases List.mem_cons.mp hb with rfl | hb
        · exact hxy
        · exact le_trans (hy b hb) hxy
      · rw [List.sorted_cons]
        exact ⟨hy, hys⟩
    · simp only [insertDesc, if_neg hxy]
      rw [List.sorted_cons]
      refine ⟨?_, ih hys⟩
      intro b hb
      rcases mem_insertDesc.mp hb with rfl | hb
      · exact le_of_not_le hxy
      · exact hy b hb

theorem sortDesc_perm (l : List Nat) : (sortDesc l).Perm l := by
  induction l with
  | nil => rfl
  | cons x xs ih =>
    have : sortDesc (x :: xs) = insertDesc x (sortDesc xs) := rfl
    rw [this]
    exact (insertDesc_perm x (sortDesc xs)).trans (ih.cons x)

theorem sorted_ge_sortDesc (l : List Nat) : List.Sorted (· ≥ ·) (sortDesc l) := by
  induction l with
  | nil => simp [sortDesc]
  | cons x xs ih => exact sorted_ge_insertDesc x ih

theorem sorted_gt_sortDesc {l : List Nat} (h : l.Nodup) :
    List.Sorted (· > ·) (sortDesc l) := by
  have hn : (sortDesc l).Nodup := ((sortDesc_perm l).nodup_iff).mpr h
  have hs := sorted_ge_sortDesc l
  exact (List.Pairwise.and hs hn).imp (fun hp => lt_of_le_of_ne hp.1 (Ne.symm hp.2))

theorem sortDesc_eq_nil {l : List Nat} : sortDesc l = [] ↔ l = [] := by
  constructor
  · intro h
    have := (sortDesc_perm l).length_eq
    rw [h] at this
    exact List.length_eq_zero.mp this.symm
  · intro h
    subst h
    rfl

theorem lookupH_mem {m : List (Nat × Fmt)} {h : Nat} {f : Fmt} :
    lookupH m h = some f → (h, f) ∈ m := by
  induction m with
  | nil => simp [lookupH]
  | cons p m ih =>
    obtain ⟨h', f'⟩ := p
    intro he
    by_cases hh : h' = h
    · subst hh
      have hf : f' = f := by simpa [lookupH] using he
      subst hf
      exact List.mem_cons_self _ _
    · have ht : lookupH m h = some f := by simpa [lookupH, hh] using he
      exact List.mem_cons_of_mem _ (ih ht)

theorem lookupH_eq_none {m : List (Nat × Fmt)} {h : Nat} :
    lookupH m h = none ↔ h ∉ m.map Prod.fst := by
  induction m with
  | nil => simp [lookupH]
  | cons p m ih =>
    obtain ⟨h', f'⟩ := p
    simp only [lookupH, List.map_cons, List.mem_cons]
    by_cases hh : h' = h
    · subst hh
      simp
    · rw [if_neg hh, ih]
      simp [Ne.symm hh]

theorem lookupH_of_mem_keys {m : List (Nat × Fmt)} {h : Nat}
    (hm : h ∈ m.map Prod.fst) : ∃ f, lookupH m h = some f := by
  cases he : lookupH m h with
  | none => exact absurd hm (lookupH_eq_none.mp he)
  | some f => exact ⟨f, rfl⟩

theorem setH_keys (m : List (Nat × Fmt)) (h : Nat) (f : Fmt) :
    (setH m h f).map Prod.fst = m.map Prod.fst := by
  induction m with
  | nil => rfl
  | cons p m ih =>
    obtain ⟨h', f'⟩ := p
    simp only [setH]
    by_cases hh : h' = h
    · subst hh
      simp
    · rw [if_neg hh]
      simp [ih]

theorem mem_setH {m : List (Nat × Fmt)} {h : Nat} {f : Fmt} {p : Nat × Fmt} :
    p ∈ setH m h f → p ∈ m ∨ p = (h, f) := by
  induction m with
  | nil => simp [setH]
  | cons q m ih =>
    obtain ⟨h', f'⟩ := q
    intro hp
    by_cases hh : h' = h
    · subst hh
      rw [setH, if_pos rfl] at hp
      rcases List.mem_cons.mp hp with rfl | hp
      · exact Or.inr rfl
      · exact Or.inl (List.mem_cons_of_mem _ hp)
    · rw [setH, if_neg hh] at hp
      rcases List.mem_cons.mp hp with rfl | hp
      · exact Or.inl (List.mem_cons_self _ _)
      · rcases ih hp with hp | hp
        · exact Or.inl (List.mem_cons_of_mem _ hp)
        · exact Or.inr hp

theorem byHInv_upd {m : List (Nat × Fmt)} {f : Fmt} (hm : ByHInv m) :
    ByHInv (updByH m f) := by
  obtain ⟨hnd, hkeys⟩ := hm
  unfold updByH
  by_cases hc : 1080 < hkey f
  · rw [if_pos hc]
    exact ⟨hnd, hkeys⟩
  · rw [if_neg hc]
    cases hl : lookupH m (hkey f) with
    | none =>
      constructor
      · rw [List.map_append]
        refine hnd.append (by simp) ?_
        intro a ha
        simp only [List.map_cons, List.map_nil, List.mem_singleton]
        intro he
        subst he
        exact (lookupH_eq_none.mp hl) ha
      · intro p hp
        rcases List.mem_append.mp hp with hp | hp
        · exact hkeys p hp
        · simp only [List.mem_singleton] at hp
          subst hp
          rfl
    | some cur =>
      dsimp only
      by_cases hs : pyScore cur < pyScore f
      · rw [if_pos hs]
        constructor
        · rw [setH_keys]
          exact hnd
        · intro p hp
          rcases mem_setH hp with hp | hp
          · exact hkeys p hp
          · subst hp
            rfl
      · rw [if_neg hs]
        exact ⟨hnd, hkeys⟩

theorem byHInv_foldl (l : List Fmt) :
    ∀ m, ByHInv m → ByHInv (List.foldl updByH m l) := by
  induction l with
  | nil => intro m hm; exact hm
  | cons f fs ih =>
    intro m hm
    exact ih (updByH m f) (byHInv_upd hm)

theorem byHInv_build (vfs : List Fmt) : ByHInv (buildByH vfs) :=
  byHInv_foldl vfs [] ⟨List.nodup_nil, by simp⟩

theorem selectFormats_map_hkey (fs : List Fmt) :
    (selectFormats fs).map hkey
      = sortDesc ((buildByH (fs.filter isVideo)).map Prod.fst) := by
  unfold selectFormats
  rw [List.map_map]
  have hmem : ∀ h ∈ sortDesc ((buildByH (fs.filter isVideo)).map Prod.fst),
      (hkey ∘ fun h => (lookupH (buildByH (fs.filter isVideo)) h).getD fmtDefault) h = h := by
    intro h hm
    have hk : h ∈ (buildByH (fs.filter isVideo)).map Prod.fst :=
      ((sortDesc_perm _).mem_iff).mp hm
    obtain ⟨f, hf⟩ := lookupH_of_mem_keys hk
    simp only [Function.comp_apply, hf, Option.getD_some]
    exact (byHInv_build _).2 (h, f) (lookupH_mem hf)
  rw [List.map_congr_left hmem, List.map_id']

theorem setH_eq_nil {m : List (Nat × Fmt)} {h : Nat} {f : Fmt} :
    setH m h f = [] ↔ m = [] := by
  cases m with
  | nil => simp [setH]
  | cons q m =>
    obtain ⟨h', f'⟩ := q
    constructor
    · intro he
      by_cases hh : h' = h
      · subst hh
        rw [setH, if_pos rfl] at he
        exact absurd he (List.cons_ne_nil _ _)
      · rw [setH, if_neg hh] at he
        exact absurd he (List.cons_ne_nil _ _)
    · intro he
      exact absurd he (List.cons_ne_nil _ _)

theorem updByH_eq_nil {m : List (Nat × Fmt)} {f : Fmt} :
    updByH m f = [] ↔ m = [] ∧ 1080 < hkey f := by
  unfold updByH
  by_cases hc : 1080 < hkey f
  · rw [if_pos hc]
    simp [hc]
  · rw [if_neg hc]
    cases hl : lookupH m (hkey f) with
    | none =>
      dsimp only
      simp [hc]
    | some cur =>
      dsimp only
      have hm : m ≠ [] := by
        intro he
        subst he
        simp [lookupH] at hl
      by_cases hs : pyScore cur < pyScore f
      · rw [if_pos hs]
        simp [setH_eq_nil, hm, hc]
      · rw [if_neg hs]
        simp [hm, hc]

theorem foldl_updByH_eq_nil (l : List Fmt) :
    ∀ m, List.foldl updByH m l = [] ↔ m = [] ∧ ∀ f ∈ l, 1080 < hkey f := by
  induction l with
  | nil => intro m; simp
  | cons f fs ih =>
    intro m
    rw [List.foldl_cons, ih (updByH m f)]
    rw [updByH_eq_nil]
    constructor
    · rintro ⟨⟨hm, hf⟩, hfs⟩
      refine ⟨hm, ?_⟩
      intro g hg
      rcases List.mem_cons.mp hg with rfl | hg
      · exact hf
      · exact hfs g hg
    · rintro ⟨hm, hall⟩
      exact ⟨⟨hm, hall f (List.mem_cons_self _ _)⟩,
        fun g hg => hall g (List.mem_cons_of_mem _ hg)⟩

theorem buildByH_eq_nil {vfs : List Fmt} :
    buildByH vfs = [] ↔ ∀ f ∈ vfs, 1080 < hkey f := by
  have := foldl_updByH_eq_nil vfs []
  simpa [buildByH] using this

theorem selectFormats_eq_nil {fs : List Fmt} :
    selectFormats fs = [] ↔ ∀ f ∈ fs.filter isVideo, 1080 < hkey f := by
  unfold selectFormats
  rw [List.map_eq_nil_iff, sortDesc_eq_nil, List.map_eq_nil_iff, buildByH_eq_nil]

theorem sorted_gt_dropLast_pos {l : List Nat} (h : List.Sorted (· > ·) l) :
    ∀ x ∈ l.dropLast, x ≠ 0 := by
  induction l with
  | nil => simp
  | cons a t ih =>
    cases t with
    | nil => simp
    | cons b t' =>
      rw [List.sorted_cons] at h
      obtain ⟨ha, ht⟩ := h
      intro x hx
      rw [List.dropLast_cons₂, List.mem_cons] at hx
      rcases hx with rfl | hx
      · have hb : b < x := ha b (List.mem_cons_self _ _)
        omega
      · exact ih ht x hx

/-! ## Lemmas about the splitter arithmetic -/

/-- Walking `range(0, ceil(duration), seg)` produces exactly
`ceil(duration / seg)` strides: `⌈⌈x⌉/n⌉ = ⌈x/n⌉` in Nat ceiling-division
form. -/
theorem natCeil_div_nat (x : ℚ) (n : Nat) (hx : 0 < x) (hn : 0 < n) :
    (⌈x⌉₊ + n - 1) / n = ⌈x / (n : ℚ)⌉₊ := by
  have hn' : (0 : ℚ) < (n : ℚ) := by positivity
  have hk1 : 0 < ⌈x / (n : ℚ)⌉₊ := Nat.ceil_pos.mpr (div_pos hx hn')
  have h1 : x / (n : ℚ) ≤ (⌈x / (n : ℚ)⌉₊ : ℚ) := Nat.le_ceil _
  have h2 : ((⌈x / (n : ℚ)⌉₊ - 1 : Nat) : ℚ) < x / (n : ℚ) := by
    apply Nat.lt_ceil.mp
    omega
  have hxkn : x ≤ (⌈x / (n : ℚ)⌉₊ : ℚ) * (n : ℚ) := (div_le_iff₀ hn').mp h1
  have hlow : ((⌈x / (n : ℚ)⌉₊ - 1 : Nat) : ℚ) * (n : ℚ) < x := (lt_div_iff₀ hn').mp h2
  have hTle : ⌈x⌉₊ ≤ ⌈x / (n : ℚ)⌉₊ * n := by
    apply Nat.ceil_le.mpr
    push_cast
    exact hxkn
  have hTgt : (⌈x / (n : ℚ)⌉₊ - 1) * n < ⌈x⌉₊ := by
    apply Nat.lt_ceil.mpr
    calc ((((⌈x / (n : ℚ)⌉₊ - 1) * n : Nat)) : ℚ)
        = ((⌈x / (n : ℚ)⌉₊ - 1 : Nat) : ℚ) * (n : ℚ) := by push_cast; ring
      _ < x := hlow
  have hmul : ⌈x / (n : ℚ)⌉₊ * n = (⌈x / (n : ℚ)⌉₊ - 1) * n + n := by
    have hs : ⌈x / (n : ℚ)⌉₊ - 1 + 1 = ⌈x / (n : ℚ)⌉₊ := by omega
    calc ⌈x / (n : ℚ)⌉₊ * n = (⌈x / (n : ℚ)⌉₊ - 1 + 1) * n := by rw [hs]
      _ = (⌈x / (n : ℚ)⌉₊ - 1) * n + n := by ring
  have g1 : ⌈x / (n : ℚ)⌉₊ ≤ (⌈x⌉₊ + n - 1) / n := by
    apply (Nat.le_div_iff_mul_le hn).mpr
    omega
  have g2 : (⌈x⌉₊ + n - 1) / n < ⌈x / (n : ℚ)⌉₊ + 1 := by
    apply (Nat.div_lt_iff_lt_mul hn).mpr
    have : (⌈x / (n : ℚ)⌉₊ + 1) * n = ⌈x / (n : ℚ)⌉₊ * n + n := by ring
    omega
  omega

theorem pyRange_length (stop step : Nat) :
    (pyRange stop step).length = (stop + step - 1) / step := by
  simp [pyRange]

theorem pyRange_mem_lt {stop step : Nat} (hstep : 0 < step) :
    ∀ s ∈ pyRange stop step, s < stop := by
  intro s hs
  simp only [pyRange, List.mem_map, List.mem_range] at hs
  obtain ⟨i, hi, rfl⟩ := hs
  have h1 : i + 1 ≤ (stop + step - 1) / step := hi
  have h2 : (i + 1) * step ≤ stop + step - 1 := (Nat.le_div_iff_mul_le hstep).mp h1
  have h3 : i * step + step ≤ stop + step - 1 := by
    calc i * step + step = (i + 1) * step := by ring
      _ ≤ stop + step - 1 := h2
  omega

/-- With every ffmpeg stride succeeding, the loop produces one part per
start offset, indexed consecutively from `idx`, all with segment length
`seg`. -/
theorem buildParts_all_ok (ok : Nat → Bool) (seg : Nat) (hok : ∀ s, ok s = true) :
    ∀ (starts : List Nat) (idx : Nat),
      buildParts ok seg idx starts
        = .ok ((indexedFrom idx starts).map (fun z => ⟨z.1, z.2, seg⟩)) := by
  intro starts
  induction starts with
  | nil => intro idx; rfl
  | cons s rest ih =>
    intro idx
    rw [buildParts, if_pos (hok s), ih (idx + 1)]
    rfl

theorem checkSizes_ok (psz : Nat → Nat) (maxB : Nat)
    (h : ∀ i, psz i ≤ maxB + 1024 * 1024) :
    ∀ ps : List SplitPart, checkSizes psz maxB ps = .ok () := by
  intro ps
  induction ps with
  | nil => rfl
  | cons p rest ih =>
    rw [checkSizes, if_neg (by exact Nat.not_lt.mpr (h p.idx)), ih]

theorem indexedFrom_map_snd {α : Type} (i : Nat) (l : List α) :
    (indexedFrom i l).map Prod.snd = l := by
  induction l generalizing i with
  | nil => rfl
  | cons p ps ih => simp [indexedFrom, ih]

theorem indexedFrom_length {α : Type} (i : Nat) (l : List α) :
    (indexedFrom i l).length = l.length := by
  induction l generalizing i with
  | nil => rfl
  | cons p ps ih => simp [indexedFrom, ih]

theorem mem_indexedFrom_snd {α : Type} {z : Nat × α} :
    ∀ {l : List α} {i : Nat}, z ∈ indexedFrom i l → z.2 ∈ l := by
  intro l
  induction l with
  | nil => intro i h; simp [indexedFrom] at h
  | cons p ps ih =>
    intro i h
    rw [indexedFrom, List.mem_cons] at h
    rcases h with rfl | h
    · exact List.mem_cons_self _ _
    · exact List.mem_cons_of_mem _ (ih h)

/-- Fully successful run of main.py's splitter on an oversized file with
positive duration: the parts are exactly one per stride of
`range(0, ceil(duration), seg_secs)`, consecutively indexed from 1, each
with ffmpeg window length `seg_secs`. -/
theorem split_main_spec (size maxB : Nat) (dur : ℚ) (ok : Nat → Bool) (psz : Nat → Nat)
    (hsz : maxB < size) (hdur : 0 < dur)
    (hok : ∀ s, ok s = true) (hpsz : ∀ i, psz i ≤ maxB + 1024 * 1024) :
    MainPy.split_mp4_by_time size maxB dur ok psz
      = .ok (.parts ((indexedFrom 1 (pyRange ⌈dur⌉₊ (segSecsOf size maxB dur))).map
          (fun z => ⟨z.1, z.2, segSecsOf size maxB dur⟩))) := by
  have hns : ¬ (size ≤ maxB) := by omega
  have hnd : ¬ (dur ≤ 0) := not_le.mpr hdur
  have h5 : 5 ≤ segSecsOf size maxB dur := le_max_left _ _
  have hne : ¬ (segSecsOf size maxB dur ≤ 0) := by omega
  rw [MainPy.split_mp4_by_time, if_neg hns, if_neg hnd]
  simp only [if_neg hne]
  rw [buildParts_all_ok ok _ hok]
  simp only []
  rw [checkSizes_ok psz maxB hpsz]

/-! ## Lemmas about the throttler -/

theorem should_interval (t : Throttler) (k : String) (now : ℚ) :
    (t.should k now).2.interval = t.interval := by
  rw [Throttler.should]
  by_cases h : t.interval ≤ now - t.lastMap k
  · rw [if_pos h]
  · rw [if_neg h]

theorem runCalls_interval (cs : List (String × ℚ)) :
    ∀ t : Throttler, (runCalls t cs).interval = t.interval := by
  induction cs with
  | nil => intro t; rfl
  | cons c cs ih =>
    intro t
    rw [runCalls, ih, should_interval]

theorem should_lastMap_ge {t : Throttler} {k : String} {a : ℚ} (c : String × ℚ)
    (hl : a ≤ t.lastMap k) (hc : a ≤ c.2) :
    a ≤ (t.should c.1 c.2).2.lastMap k := by
  rw [Throttler.should]
  by_cases h : t.interval ≤ c.2 - t.lastMap c.1
  · rw [if_pos h]
    dsimp only
    by_cases hk : k = c.1
    · rw [if_pos hk]
      exact hc
    · rw [if_neg hk]
      exact hl
  · rw [if_neg h]
    exact hl

theorem runCalls_lastMap_ge {k : String} {a : ℚ} (cs : List (String × ℚ))
    (hcs : ∀ c ∈ cs, a ≤ c.2) :
    ∀ t : Throttler, a ≤ t.lastMap k → a ≤ (runCalls t cs).lastMap k := by
  induction cs with
  | nil => intro t h; exact h
  | cons c cs ih =>
    intro t h
    rw [runCalls]
    refine ih (fun d hd => hcs d (List.mem_cons_of_mem _ hd)) _ ?_
    exact should_lastMap_ge c h (hcs c (List.mem_cons_self _ _))

theorem should_true_sets {t : Throttler} {k : String} {now : ℚ}
    (h : (t.should k now).1 = true) : (t.should k now).2.lastMap k = now := by
  rw [Throttler.should] at h ⊢
  by_cases hc : t.interval ≤ now - t.lastMap k
  · rw [if_pos hc]
    dsimp only
    rw [if_pos rfl]
  · rw [if_neg hc] at h
    simp at h

theorem should_true_gap {t : Throttler} {k : String} {now : ℚ}
    (h : (t.should k now).1 = true) : t.interval ≤ now - t.lastMap k := by
  rw [Throttler.should] at h
  by_cases hc : t.interval ≤ now - t.lastMap k
  · exact hc
  · rw [if_neg hc] at h
    simp at h

/-! ## Lemmas about the upload loop -/

theorem uploadGo_fail_spec {α : Type} (ok : Nat → Bool) (p : α) (post : List α) :
    ∀ (pre : List α) (i : Nat),
      (∀ j, i ≤ j → j < i + pre.length → ok j = true) → ok (i + pre.length) = false →
      uploadGo ok i (pre ++ p :: post) = (indexedFrom i pre, some (i + pre.length)) := by
  intro pre
  induction pre with
  | nil =>
    intro i _ hfail
    simp only [List.nil_append, List.length_nil, Nat.add_zero] at hfail ⊢
    rw [uploadGo, if_neg (by rw [hfail]; exact Bool.false_ne_true)]
    rfl
  | cons q pre' ih =>
    intro i hokpre hfail
    have hoki : ok i = true := hokpre i le_rfl (by simp only [List.length_cons]; omega)
    have hfail' : ok (i + 1 + pre'.length) = false := by
      have he : i + 1 + pre'.length = i + (q :: pre').length := by
        simp only [List.length_cons]; omega
      rw [he]
      exact hfail
    have hpre' : ∀ j, i + 1 ≤ j → j < i + 1 + pre'.length → ok j = true := by
      intro j h1 h2
      exact hokpre j (by omega) (by simp only [List.length_cons]; omega)
    rw [List.cons_append, uploadGo, if_pos hoki, ih (i + 1) hpre' hfail']
    simp only [indexedFrom, List.length_cons, Prod.mk.injEq, Option.some.injEq]
    exact ⟨trivial, by omega⟩

theorem uploadGo_delivered_take {α : Type} (ok : Nat → Bool) :
    ∀ (parts : List α) (i : Nat),
      ∃ k, (uploadGo ok i parts).1 = indexedFrom i (parts.take k) := by
  intro parts
  induction parts with
  | nil => intro i; exact ⟨0, rfl⟩
  | cons p ps ih =>
    intro i
    by_cases h : ok i = true
    · obtain ⟨k, hk⟩ := ih (i + 1)
      refine ⟨k + 1, ?_⟩
      rw [uploadGo, if_pos h]
      simp only [List.take_succ_cons, indexedFrom]
      rw [hk]
    · refine ⟨0, ?_⟩
      rw [uploadGo, if_neg h]
      rfl

/-! ## Lemmas about the extraction retrier -/

theorem attemptOpts_eq :
    attemptOpts infoBaseOpts = [attempt1, attempt2, attempt3, attempt4] := rfl


/-! ## Claim theorems -/

/-- C1: evaluation of both drafts' normalization at the failing input.
The claim says the normalizer first produces the streamable output by
stream-copy remux and re-encodes only if the remux fails.  In main.py the
`try` block raises `TypeError` at line 348 (unpacking `None`) before the
ffmpeg remux is ever run, so even when the remux would succeed
(`remuxOk = true`) the run re-encodes — and fails outright when the
re-encode is unavailable — while main-backup.py remuxes as the claim says.
The second half of the claim (remux fails, re-encode succeeds ⇒ the
re-encoded file is used, never the original) holds in both drafts. -/
theorem C1_normalizer_remux_never_used :
    normalizeMain true false = .failed ∧
    normalizeMain true true = .reencoded ∧
    normalizeMain false true = .reencoded ∧
    normalizeBackup true false = .remuxed ∧
    normalizeBackup true true = .remuxed ∧
    normalizeBackup false true = .reencoded ∧
    normalizeMain false false = .failed ∧
    normalizeBackup false false = .failed :=
  ⟨rfl, rfl, rfl, rfl, rfl, rfl, rfl, rfl⟩

/-- C5: on a file strictly larger than the maximum part size whose probed
duration is `≤ 0`, both drafts' `split_mp4_by_time` raise the fatal
no-duration error and return no parts; there is no size-based fallback
branch in either function. -/
theorem C5_split_no_duration (size maxB : Nat) (dur : ℚ)
    (ok : Nat → Bool) (psz : Nat → Nat)
    (hsz : maxB < size) (hdur : dur ≤ 0) :
    MainPy.split_mp4_by_time size maxB dur ok psz = .error .noDuration ∧
    BackupPy.split_mp4_by_time size maxB dur ok psz = .error .noDuration := by
  have hns : ¬ (size ≤ maxB) := by omega
  constructor
  · rw [MainPy.split_mp4_by_time, if_neg hns, if_pos hdur]
  · rw [BackupPy.split_mp4_by_time, if_neg hns, if_pos hdur]

/-- C5 witness: a 3 GiB file with probe failure (duration 0) under the
default 1.95 GiB budget. -/
theorem C5_split_no_duration_witness :
    MainPy.split_mp4_by_time 3221225472 2093796556 0 (fun _ => true) (fun _ => 0)
      = .error .noDuration ∧
    BackupPy.split_mp4_by_time 3221225472 2093796556 0 (fun _ => true) (fun _ => 0)
      = .error .noDuration :=
  C5_split_no_duration 3221225472 2093796556 0 (fun _ => true) (fun _ => 0)
    (by decide) (by decide)

/-- C9: on every exit of `pipeline_task` — success, any stage failure, or
an unexpected exception in the body — the `finally` block has removed the
scratch working directory and popped the session token, in both drafts;
and the reported outcome is exactly what the body produced. -/
theorem C9_cleanup_on_every_exit (env : PipelineEnv) :
    ((pipeline_task_main env).2.tmpdirExists = false ∧
      (pipeline_task_main env).2.sessionPresent = false ∧
      (pipeline_task_main env).1 = pipelineBodyMain env) ∧
    ((pipeline_task_backup env).2.tmpdirExists = false ∧
      (pipeline_task_backup env).2.sessionPresent = false ∧
      (pipeline_task_backup env).1 = pipelineBodyBackup env) :=
  ⟨⟨rfl, rfl, rfl⟩, ⟨rfl, rfl, rfl⟩⟩

/-- C10: the two drafts' splitters are extensionally equal: same identity
case, same duration-failure condition, and the same parts (count, start
offsets, per-part ffmpeg window lengths) on every input. -/
theorem C10_splitters_equivalent (size maxB : Nat) (dur : ℚ)
    (ok : Nat → Bool) (psz : Nat → Nat) :
    MainPy.split_mp4_by_time size maxB dur ok psz
      = BackupPy.split_mp4_by_time size maxB dur ok psz := rfl

/-- C2 (amended): main.py inserts the session token iff the extracted
format list contains at least one format with a video stream
(`vcodec != "none"`), with no check against the 1080p ceiling, so a session
can be created although no selectable encoding exists; main-backup.py
inserts the token iff at least one selectable encoding (video stream with
height at or below 1080) exists, as the original claim states. -/
theorem C2_session_creation_amended (fs : List Fmt) :
    (mainSessionCreated fs = true ↔ ∃ f ∈ fs, isVideo f = true) ∧
    (backupSessionCreated fs = true ↔
      ∃ f ∈ fs, isVideo f = true ∧ hkey f ≤ 1080) := by
  constructor
  · rw [mainSessionCreated]
    simp [List.isEmpty_iff, List.filter_eq_nil_iff]
  · rw [backupSessionCreated]
    have hiff : selectFormats fs = [] ↔
        ∀ f ∈ fs, isVideo f = true → 1080 < hkey f := by
      rw [selectFormats_eq_nil]
      simp [List.mem_filter]
    simp only [Bool.not_eq_true', List.isEmpty_eq_false_iff_exists_mem]
    constructor
    · rintro ⟨g, hg⟩
      by_contra hno
      push_neg at hno
      have hnil : selectFormats fs = [] := hiff.mpr hno
      rw [hnil] at hg
      exact absurd hg (List.not_mem_nil g)
    · rintro ⟨f, hf, hv, hle⟩
      have hne : ¬ (selectFormats fs = []) := by
        rw [hiff]
        push_neg
        exact ⟨f, hf, hv, hle⟩
      obtain ⟨a, l, he⟩ := List.exists_cons_of_ne_nil hne
      exact ⟨a, by rw [he]; exact List.mem_cons_self _ _⟩

/-- C2 counterexample: a format list whose only entry is a video format at
1440p.  main.py creates the session entry (the claim says it must not:
no format is at or below the 1080p ceiling, and indeed the selector output
is empty), while main-backup.py declines. -/
theorem C2_session_creation_counterexample :
    mainSessionCreated c2Formats = true ∧
    selectFormats c2Formats = [] ∧
    backupSessionCreated c2Formats = false := by
  refine ⟨rfl, rfl, rfl⟩

/-- C2 witness: the amended biconditionals instantiated at the same
concrete list. -/
theorem C2_session_creation_witness :
    mainSessionCreated c2Formats = true ∧ backupSessionCreated c2Formats = false := by
  constructor
  · exact (C2_session_creation_amended c2Formats).1.mpr
      ⟨⟨some ("avc1"), some 1440, none, none⟩, by decide, by decide⟩
  · have h := (C2_session_creation_amended c2Formats).2
    cases hb : backupSessionCreated c2Formats with
    | false => rfl
    | true =>
      obtain ⟨f, hf, _, hle⟩ := h.mp hb
      have : f = ⟨some ("avc1"), some 1440, none, none⟩ := by
        simpa [c2Formats] using hf
      subst this
      simp [hkey] at hle

/-- C6: for every candidate list, the FormatSelector output has at most one
entry per distinct height (the height keys are pairwise distinct), the
heights are strictly descending in output order, and the height-0/unknown
bucket, when present, is sorted last (every non-final height is nonzero). -/
theorem C6_selector_heights (fs : List Fmt) :
    ((selectFormats fs).map hkey).Nodup ∧
    List.Sorted (· > ·) ((selectFormats fs).map hkey) ∧
    ∀ h ∈ ((selectFormats fs).map hkey).dropLast, h ≠ 0 := by
  rw [selectFormats_map_hkey]
  have hkeys : ((buildByH (fs.filter isVideo)).map Prod.fst).Nodup :=
    (byHInv_build _).1
  have hsorted := sorted_gt_sortDesc hkeys
  exact ⟨((sortDesc_perm _).nodup_iff).mpr hkeys, hsorted,
    sorted_gt_dropLast_pos hsorted⟩

/-- C6 witness: the three properties instantiated at a mixed concrete
candidate list (720p, audio-only, unknown height, 1080p, 2160p). -/
theorem C6_selector_heights_witness :
    ((selectFormats exFormats).map hkey).Nodup ∧
    List.Sorted (· > ·) ((selectFormats exFormats).map hkey) ∧
    ∀ h ∈ ((selectFormats exFormats).map hkey).dropLast, h ≠ 0 :=
  C6_selector_heights exFormats

/-- C7: parts are delivered one at a time in strictly increasing split
order.  If uploads of parts `1..pre.length` succeed and the upload of part
`pre.length + 1` fails, exactly the earlier parts remain delivered (the
loop never retracts or retries them), the failing index is reported and
the parts after it are never attempted (the result does not depend on
them); the delivered list is always an in-order prefix of the parts; and
a failing index makes the pipeline's upload stage end in `uploadFailed`. -/
theorem C7_upload_stops_at_first_failure :
    (∀ (α : Type) (ok : Nat → Bool) (pre : List α) (p : α) (post : List α),
      (∀ j, 1 ≤ j → j ≤ pre.length → ok j = true) →
      ok (pre.length + 1) = false →
      uploadGo ok 1 (pre ++ p :: post) = (indexedFrom 1 pre, some (pre.length + 1))) ∧
    (∀ (α : Type) (ok : Nat → Bool) (parts : List α),
      ∃ k, (uploadGo ok 1 parts).1 = indexedFrom 1 (parts.take k)) ∧
    (∀ (env : PipelineEnv) (ps : List SplitPart) (k : Nat),
      (uploadGo env.uploadOk 1 (List.range ps.length)).2 = some k →
      uploadStage env (.parts ps) = .uploadFailed k) := by
  refine ⟨?_, ?_, ?_⟩
  · intro α ok pre p post hok hfail
    have := uploadGo_fail_spec ok p post pre 1
      (fun j h1 h2 => hok j h1 (by omega))
      (by rw [Nat.add_comm]; exact hfail)
    rw [this, Nat.add_comm]
  · intro α ok parts
    exact uploadGo_delivered_take ok parts 1
  · intro env ps k h
    simp [uploadStage, h]

/-- C7 witness: three parts where the delivery of part 2 fails — only part
1 is delivered, part 3 is untouched, the failure index is 2. -/
theorem C7_upload_stops_witness :
    uploadGo (fun j => decide (j ≠ 2)) 1 ([10] ++ 20 :: [30])
      = (indexedFrom 1 [10], some 2) :=
  C7_upload_stops_at_first_failure.1 Nat (fun j => decide (j ≠ 2)) [10] 20 [30]
    (by decide) (by decide)

/-- C8: two `should` calls on the same key that both return `true`, with
arbitrary interleaved calls whose monotonic-clock stamps are not earlier
than the first call's, are separated by at least the configured interval;
and a call on one key never changes the `should` result for a different
key (per-key throttling is independent). -/
theorem C8_throttler_interval_and_independence :
    (∀ (t : Throttler) (k : String) (t1 : ℚ) (mid : List (String × ℚ)) (t2 : ℚ),
      (∀ c ∈ mid, t1 ≤ c.2) →
      (t.should k t1).1 = true →
      ((runCalls (t.should k t1).2 mid).should k t2).1 = true →
      t.interval ≤ t2 - t1) ∧
    (∀ (t : Throttler) (k k2 : String) (now now2 : ℚ), k ≠ k2 →
      (((t.should k now).2).should k2 now2).1 = (t.should k2 now2).1) := by
  constructor
  · intro t k t1 mid t2 hmid h1 h2
    have hs1 : (t.should k t1).2.lastMap k = t1 := should_true_sets h1
    have hge : t1 ≤ (runCalls (t.should k t1).2 mid).lastMap k :=
      runCalls_lastMap_ge mid hmid _ (le_of_eq hs1.symm)
    have hint : (runCalls (t.should k t1).2 mid).interval = t.interval := by
      rw [runCalls_interval, should_interval]
    have hgap := should_true_gap h2
    rw [hint] at hgap
    linarith
  · intro t k k2 now now2 hne
    have hne2 : k2 ≠ k := Ne.symm hne
    by_cases h : t.interval ≤ now - t.lastMap k <;>
      by_cases h2 : t.interval ≤ now2 - t.lastMap k2 <;>
        simp [Throttler.should, h, h2, hne2]

/-- C8 witness: with a 5-second interval, a key emits at clock 10 and again
at clock 16, so the theorem yields interval ≤ 6; and a call on key "a"
does not change the result for key "b". -/
theorem C8_throttler_witness :
    (Throttler.init 5).interval ≤ (16 : ℚ) - 10 ∧
    ((((Throttler.init 5).should ("a") 3).2).should ("b") 4).1
      = ((Throttler.init 5).should ("b") 4).1 := by
  constructor
  · exact C8_throttler_interval_and_independence.1 (Throttler.init 5) ("a") 10 [] 16
      (by intro c hc; exact absurd hc (List.not_mem_nil c))
      (by norm_num [Throttler.should, Throttler.init])
      (by norm_num [Throttler.should, Throttler.init, runCalls])
  · exact C8_throttler_interval_and_independence.2 (Throttler.init 5) ("a") ("b") 3 4
      (by simp)

/-- General schedule of a fully successful oversized split (main.py):
one part per stride, starts drawn from `range(0, ceil(duration), seg)`,
every start below the ceiling, and `ceil(duration / segSecs)` parts. -/
theorem split_main_schedule (size maxB : Nat) (dur : ℚ) (ok : Nat → Bool)
    (psz : Nat → Nat) (hsz : maxB < size) (hdur : 0 < dur)
    (hok : ∀ s, ok s = true) (hpsz : ∀ i, psz i ≤ maxB + 1024 * 1024) :
    ∃ ps : List SplitPart,
      MainPy.split_mp4_by_time size maxB dur ok psz = .ok (.parts ps) ∧
      ps.map SplitPart.start = pyRange ⌈dur⌉₊ (segSecsOf size maxB dur) ∧
      (∀ p ∈ ps, p.start < ⌈dur⌉₊ ∧ p.segLen = segSecsOf size maxB dur) ∧
      ps.length = ⌈dur / ((segSecsOf size maxB dur : Nat) : ℚ)⌉₊ := by
  have h5 : 5 ≤ segSecsOf size maxB dur := le_max_left _ _
  have hpos : 0 < segSecsOf size maxB dur := by omega
  refine ⟨_, split_main_spec size maxB dur ok psz hsz hdur hok hpsz, ?_, ?_, ?_⟩
  · rw [List.map_map]
    exact indexedFrom_map_snd 1 _
  · intro p hp
    rw [List.mem_map] at hp
    obtain ⟨z, hz, rfl⟩ := hp
    exact ⟨pyRange_mem_lt hpos _ (mem_indexedFrom_snd hz), rfl⟩
  · rw [List.length_map, indexedFrom_length, pyRange_length]
    exact natCeil_div_nat dur _ hdur hpos

/-- C4: on a file strictly above the size budget with positive probed
duration, the splitter's segment length is
`floor(maxBytes / (size / duration))` clamped to a minimum of 5, the parts
start at offsets `0, segSecs, 2*segSecs, ...`, every offset is below
`ceil(duration)`, and the part count is `ceil(duration / segSecs)`; in
particular the 4 GiB / 3600 s / 2,093,796,556-byte instance yields exactly
3 parts. -/
theorem C4_split_schedule :
    (∀ (size maxB : Nat) (dur : ℚ) (ok : Nat → Bool) (psz : Nat → Nat),
      maxB < size → 0 < dur → (∀ s, ok s = true) →
      (∀ i, psz i ≤ maxB + 1024 * 1024) →
      segSecsOf size maxB dur = max 5 ⌊(maxB : ℚ) / ((size : ℚ) / dur)⌋₊ ∧
      ∃ ps : List SplitPart,
        MainPy.split_mp4_by_time size maxB dur ok psz = .ok (.parts ps) ∧
        ps.map SplitPart.start
          = (List.range ps.length).map (fun i => i * segSecsOf size maxB dur) ∧
        (∀ p ∈ ps, p.start < ⌈dur⌉₊) ∧
        ps.length = ⌈dur / ((segSecsOf size maxB dur : Nat) : ℚ)⌉₊) ∧
    (∃ ps : List SplitPart,
      MainPy.split_mp4_by_time 4294967296 2093796556 3600
        (fun _ => true) (fun _ => 0) = .ok (.parts ps) ∧ ps.length = 3) := by
  constructor
  · intro size maxB dur ok psz hsz hdur hok hpsz
    refine ⟨rfl, ?_⟩
    obtain ⟨ps, heq, hmap, hmem, hlen⟩ :=
      split_main_schedule size maxB dur ok psz hsz hdur hok hpsz
    refine ⟨ps, heq, ?_, fun p hp => (hmem p hp).1, hlen⟩
    have hlen2 : ps.length = (pyRange ⌈dur⌉₊ (segSecsOf size maxB dur)).length := by
      rw [← hmap, List.length_map]
    rw [hmap, hlen2, pyRange_length]
    rfl
  · have hfl : ⌊((2093796556 : Nat) : ℚ) / (((4294967296 : Nat) : ℚ) / 3600)⌋₊ = 1754 := by
      rw [Nat.floor_eq_iff (by positivity)]
      constructor <;> norm_num
    have hseg : segSecsOf 4294967296 2093796556 3600 = 1754 := by
      rw [segSecsOf, hfl]
      decide
    have hc3 : ⌈(3600 : ℚ) / ((1754 : Nat) : ℚ)⌉₊ = 3 := by
      rw [Nat.ceil_eq_iff (by norm_num)]
      constructor <;> norm_num
    obtain ⟨ps, heq, _, _, hlen⟩ :=
      split_main_schedule 4294967296 2093796556 3600 (fun _ => true) (fun _ => 0)
        (by norm_num) (by norm_num) (fun _ => rfl) (fun _ => Nat.zero_le _)
    refine ⟨ps, heq, ?_⟩
    rw [hlen, hseg]
    exact hc3

/-- C4 witness: the schedule theorem applied at the 4 GiB, 3600-second,
1.95 GiB-budget instance of the spec's scenario B. -/
theorem C4_split_schedule_witness :
    segSecsOf 4294967296 2093796556 3600
      = max 5 ⌊((2093796556 : Nat) : ℚ) / (((4294967296 : Nat) : ℚ) / 3600)⌋₊ ∧
    ∃ ps : List SplitPart,
      MainPy.split_mp4_by_time 4294967296 2093796556 3600
        (fun _ => true) (fun _ => 0) = .ok (.parts ps) ∧
      ps.length = ⌈(3600 : ℚ) / ((segSecsOf 4294967296 2093796556 3600 : Nat) : ℚ)⌉₊ := by
  obtain ⟨hseg, ps, heq, _, _, hlen⟩ :=
    C4_split_schedule.1 4294967296 2093796556 3600 (fun _ => true) (fun _ => 0)
      (by norm_num) (by norm_num) (fun _ => rfl) (fun _ => Nat.zero_le _)
  exact ⟨hseg, ps, heq, hlen⟩

/-- C3 (amended): in metadata-only mode, `try_extract_info` attempts the
four negotiation profiles in the fixed order default, impersonation,
explicit headers, both combined; the first profile that succeeds
short-circuits the sequence (the attempt counter equals the position of
the first success), and when all four fail, the error raised is the
failure recorded for the last attempt.  In download mode, `run_ydl`
performs exactly one yt-dlp invocation with the chosen format's options:
no negotiation-profile retry happens there. -/
theorem C3_extraction_profiles (E I : Type) (extract : YdlOpts → Except E (Option I)) :
    (∀ fmtid, run_ydl extract fmtid = extract (dlOpts fmtid)) ∧
    (∀ i, extract attempt1 = .ok (some i) → try_extract_info extract = (.ok i, 1)) ∧
    (∀ i, attemptFails extract attempt1 → extract attempt2 = .ok (some i) →
      try_extract_info extract = (.ok i, 2)) ∧
    (∀ i, attemptFails extract attempt1 → attemptFails extract attempt2 →
      extract attempt3 = .ok (some i) → try_extract_info extract = (.ok i, 3)) ∧
    (∀ i, attemptFails extract attempt1 → attemptFails extract attempt2 →
      attemptFails extract attempt3 → extract attempt4 = .ok (some i) →
      try_extract_info extract = (.ok i, 4)) ∧
    (∀ f, attemptFails extract attempt1 → attemptFails extract attempt2 →
      attemptFails extract attempt3 → failRecord (extract attempt4) = some f →
      try_extract_info extract = (.error f, 4)) := by
  refine ⟨fun _ => rfl, ?_, ?_, ?_, ?_, ?_⟩
  · intro i h1
    rw [try_extract_info, attemptOpts_eq]
    simp [attemptGo, h1]
  · intro i h1 h2
    rw [try_extract_info, attemptOpts_eq]
    rcases h1 with h1 | ⟨e1, h1⟩ <;> simp [attemptGo, h1, h2]
  · intro i h1 h2 h3
    rw [try_extract_info, attemptOpts_eq]
    rcases h1 with h1 | ⟨e1, h1⟩ <;> rcases h2 with h2 | ⟨e2, h2⟩ <;>
      simp [attemptGo, h1, h2, h3]
  · intro i h1 h2 h3 h4
    rw [try_extract_info, attemptOpts_eq]
    rcases h1 with h1 | ⟨e1, h1⟩ <;> rcases h2 with h2 | ⟨e2, h2⟩ <;>
      rcases h3 with h3 | ⟨e3, h3⟩ <;> simp [attemptGo, h1, h2, h3, h4]
  · intro f h1 h2 h3 h4
    rw [try_extract_info, attemptOpts_eq]
    cases he : extract attempt4 with
    | error e =>
      rw [he] at h4
      simp only [failRecord, Option.some.injEq] at h4
      subst h4
      rcases h1 with h1 | ⟨e1, h1⟩ <;> rcases h2 with h2 | ⟨e2, h2⟩ <;>
        rcases h3 with h3 | ⟨e3, h3⟩ <;> simp [attemptGo, h1, h2, h3, he]
    | ok v =>
      cases v with
      | none =>
        rw [he] at h4
        simp only [failRecord, Option.some.injEq] at h4
        subst h4
        rcases h1 with h1 | ⟨e1, h1⟩ <;> rcases h2 with h2 | ⟨e2, h2⟩ <;>
          rcases h3 with h3 | ⟨e3, h3⟩ <;> simp [attemptGo, h1, h2, h3, he]
      | some i =>
        rw [he] at h4
        simp [failRecord] at h4

/-- C3 counterexample: an upstream host that rejects the default network
identity (attempt 1 raises) but accepts impersonated requests (attempt 2
succeeds).  Metadata-only mode recovers on the second profile, but
download mode fails outright: `run_ydl` makes a single default-identity
attempt, contradicting the claim that both modes walk the four profiles
with first-success short-circuiting. -/
theorem C3_download_single_attempt_counterexample :
    try_extract_info exExtract = (.ok 7, 2) ∧
    run_ydl exExtract ("f137") = .error 0 :=
  ⟨rfl, rfl⟩

/-- C3 witness: the amended theorem applied to the concrete oracle that
fails on the default identity and succeeds under impersonation. -/
theorem C3_extraction_profiles_witness :
    run_ydl exExtract ("f137") = exExtract (dlOpts ("f137")) ∧
    try_extract_info exExtract = (.ok 7, 2) := by
  have h := C3_extraction_profiles Nat Nat exExtract
  exact ⟨h.1 ("f137"), h.2.2.1 7 (Or.inr ⟨0, rfl⟩) rfl⟩
